import Mathlib

/-!
Verification of the space-echo tape-delay DSP core (`src/dsp/spacecho.c`)
against its natural-language specification.

Embedding conventions:
* C `float` arithmetic is modelled exactly over `ℚ` (ideal real arithmetic);
  the numeric tolerances in the spec (±500, ≥1000 on int16 magnitudes) are far
  larger than single-precision rounding, so the idealisation is faithful for
  every property settled here.
* The transcendental C library calls (`expf`, `tanhf`, `powf(24, ·)`) have no
  computable exact model, so the pipeline is parametrised by a `RealFuns`
  record carrying models of those three functions.  Every pipeline theorem is
  proved for an arbitrary `RealFuns`, hence in particular for the true
  functions; closed witnesses and counterexamples instantiate it with the
  computable stand-ins `stdFuns`, whose only properties used (value at the
  relevant points, injectivity on the relevant arguments) are shared by the C
  library functions.
* `SoftSaturate` is additionally embedded over `ℝ` with Mathlib's `Real.tanh`
  (`SoftSaturateR`) so that the analytic saturation bounds can be proved about
  the genuine hyperbolic tangent.
* The int16 block interface: a frame is a pair of `ℤ` (interleaved stereo);
  input conversion divides by 32768, output conversion clips to [-1, 1],
  multiplies by 32767 and truncates toward zero exactly as the C cast does.
* `set_param` receives the already-parsed `atof` value as a `ℚ` (the
  string-to-float marshalling is the host adapter layer, outside the core);
  `get_param` returns the stored normalised value for the five float keys
  (the C code formats it with "%.2f"; the metadata keys `name`,
  `ui_hierarchy`, `chain_params` return fixed JSON/name strings, not
  parameter values, and are not part of the numeric model).
-/

/-! ## SmoothedValue (spacecho.c lines 25-60) -/

structure SmoothedValue where
  currentValue : ℚ
  targetValue : ℚ
  step : ℚ
  stepsRemaining : ℤ
deriving DecidableEq, Repr

/-- `SmoothedValue_Init` (lines 32-37). -/
def SmoothedValue_Init (initialValue : ℚ) : SmoothedValue :=
  { currentValue := initialValue, targetValue := initialValue, step := 0, stepsRemaining := 0 }

/-- `SmoothedValue_SetTarget` (lines 39-49). -/
def SmoothedValue_SetTarget (sv : SmoothedValue) (newTarget : ℚ) (rampSamples : ℤ) :
    SmoothedValue :=
  if 0 < rampSamples then
    { sv with targetValue := newTarget,
              step := (newTarget - sv.currentValue) / (rampSamples : ℚ),
              stepsRemaining := rampSamples }
  else
    { currentValue := newTarget, targetValue := newTarget, step := 0, stepsRemaining := 0 }

/-- `SmoothedValue_GetNext` (lines 51-60); returns the value together with the
updated state (the C code mutates in place). -/
def SmoothedValue_GetNext (sv : SmoothedValue) : ℚ × SmoothedValue :=
  if 0 < sv.stepsRemaining then
    let c := sv.currentValue + sv.step
    let r := sv.stepsRemaining - 1
    let c2 := if r = 0 then sv.targetValue else c
    (c2, { sv with currentValue := c2, stepsRemaining := r })
  else
    (sv.currentValue, sv)

/-- State after `n` successive `SmoothedValue_GetNext` calls. -/
def SmoothedValue_afterN (sv : SmoothedValue) : ℕ → SmoothedValue
  | 0 => sv
  | n + 1 => (SmoothedValue_GetNext (SmoothedValue_afterN sv n)).2

/-! ## DelayLine (lines 66-115): circular buffer with linear interpolation.
The buffer is a total function `ℕ → ℚ`; only indices below `bufferLength` are
ever read or written (that is assertion C10). -/

structure DelayLine where
  buffer : ℕ → ℚ
  bufferLength : ℕ
  writePosition : ℕ
  sampleRate : ℚ

/-- `DelayLine_Write` (lines 87-93). -/
def DelayLine_Write (dl : DelayLine) (sample : ℚ) : DelayLine :=
  let wp := dl.writePosition + 1
  { dl with buffer := Function.update dl.buffer dl.writePosition sample,
            writePosition := if dl.bufferLength ≤ wp then 0 else wp }

/-- The delay-in-samples after the two clamps of `DelayLine_Read` (lines 97-101). -/
def DelayLine_clampedDelay (dl : DelayLine) (delayTimeSeconds : ℚ) : ℚ :=
  let d0 := delayTimeSeconds * dl.sampleRate
  let d1 := if d0 < 1 then 1 else d0
  if ((dl.bufferLength : ℚ) - 1) < d1 then (dl.bufferLength : ℚ) - 1 else d1

/-- The wrapped fractional read position of `DelayLine_Read` (lines 103-104). -/
def DelayLine_readPos (dl : DelayLine) (delayTimeSeconds : ℚ) : ℚ :=
  let rp := (dl.writePosition : ℚ) - DelayLine_clampedDelay dl delayTimeSeconds
  if rp < 0 then rp + (dl.bufferLength : ℚ) else rp

/-- First interpolation index of `DelayLine_Read` (line 108); the C cast
`(int)floorf` equals `⌊·⌋` because the wrapped read position is nonnegative. -/
def DelayLine_readIndex0 (dl : DelayLine) (delayTimeSeconds : ℚ) : ℤ :=
  ⌊DelayLine_readPos dl delayTimeSeconds⌋

/-- Second interpolation index of `DelayLine_Read` (line 109). -/
def DelayLine_readIndex1 (dl : DelayLine) (delayTimeSeconds : ℚ) : ℤ :=
  (DelayLine_readIndex0 dl delayTimeSeconds + 1) % (dl.bufferLength : ℤ)

/-- `DelayLine_Read` (lines 95-115): linear interpolation between the two
nearest integer sample indices. -/
def DelayLine_Read (dl : DelayLine) (delayTimeSeconds : ℚ) : ℚ :=
  let readPos := DelayLine_readPos dl delayTimeSeconds
  let fraction := readPos - (⌊readPos⌋ : ℚ)
  let sample0 := dl.buffer (DelayLine_readIndex0 dl delayTimeSeconds).toNat
  let sample1 := dl.buffer (DelayLine_readIndex1 dl delayTimeSeconds).toNat
  sample0 + fraction * (sample1 - sample0)

/-! ## OnePoleFilter (lines 121-142) and SoftSaturate (lines 148-154) -/

structure OnePoleFilter where
  z1 : ℚ
  a0 : ℚ
  b1 : ℚ
deriving DecidableEq, Repr

/-- Models of the C library transcendentals used by the DSP code:
`exp` for `expf`, `tanh` for `tanhf`, and `pow24 v` for `powf(24.0f, v)`. -/
structure RealFuns where
  exp : ℚ → ℚ
  tanh : ℚ → ℚ
  pow24 : ℚ → ℚ

/-- `OnePoleFilter_SetCutoff` (lines 133-137): `w = 2·3.14159265·f/sr`,
`b1 = exp(-w)`, `a0 = 1 - b1`. -/
def OnePoleFilter_SetCutoff (F : RealFuns) (f : OnePoleFilter)
    (cutoffHz sampleRate : ℚ) : OnePoleFilter :=
  let w := 2 * (314159265 / 100000000 : ℚ) * cutoffHz / sampleRate
  { f with b1 := F.exp (-w), a0 := 1 - F.exp (-w) }

/-- `OnePoleFilter_Process` (lines 139-142): returns the output together with
the updated filter state. -/
def OnePoleFilter_Process (f : OnePoleFilter) (input : ℚ) : ℚ × OnePoleFilter :=
  let z := input * f.a0 + f.z1 * f.b1
  (z, { f with z1 := z })

/-- `SoftSaturate` (lines 148-154) over the `ℚ` pipeline with the abstract
`tanh` model. -/
def SoftSaturate (F : RealFuns) (x amount : ℚ) : ℚ :=
  if amount ≤ 0 then x
  else
    let drive := 1 + amount * 3
    F.tanh (x * drive) / drive

/-- `SoftSaturate` (lines 148-154) embedded over `ℝ` with the genuine
hyperbolic tangent, for the analytic saturation claims. -/
noncomputable def SoftSaturateR (x amount : ℝ) : ℝ :=
  if amount ≤ 0 then x
  else
    let drive := 1 + amount * 3
    Real.tanh (x * drive) / drive

/-! ## Normalised-parameter maps (lines 174-187) -/

/-- `GetDelayTimeSeconds` (lines 174-177): `0.02 + n·n·1.98`. -/
def GetDelayTimeSeconds (normalized : ℚ) : ℚ :=
  1 / 50 + normalized * normalized * (99 / 50)

/-- `GetFeedback` (lines 179-182): `n·0.95`. -/
def GetFeedback (normalized : ℚ) : ℚ :=
  normalized * (19 / 20)

/-- `GetToneFrequency` (lines 184-187): `500·powf(24, n)`. -/
def GetToneFrequency (F : RealFuns) (normalized : ℚ) : ℚ :=
  500 * F.pow24 normalized

/-! ## The V2 instance (lines 204-319) -/

/-- `spacecho_instance_t` (lines 205-226); the two-element per-channel arrays
are unrolled into L/R fields (`MAX_CHANNELS` is the compile-time constant 2).
`module_dir` and the `initialized` flag are not part of the numeric model. -/
structure Inst where
  delayLineL : DelayLine
  delayLineR : DelayLine
  toneFilterL : OnePoleFilter
  toneFilterR : OnePoleFilter
  smoothedDelayTime : SmoothedValue
  smoothedFeedback : SmoothedValue
  smoothedMix : SmoothedValue
  smoothedTone : SmoothedValue
  param_time : ℚ
  param_feedback : ℚ
  param_mix : ℚ
  param_tone : ℚ
  param_saturation : ℚ

/-- `v2_create_instance` (lines 228-265) with `SAMPLE_RATE = 44100`,
`MAX_DELAY_SECONDS = 2` (so `bufferLength = 88200`), and the default
parameters time 0.3, feedback 0.4, mix 0.5, tone 0.5, saturation 0. -/
def v2_create_instance (F : RealFuns) : Inst :=
  let dl : DelayLine :=
    { buffer := fun _ => 0, bufferLength := 88200, writePosition := 0, sampleRate := 44100 }
  let tf0 : OnePoleFilter := { z1 := 0, a0 := 1, b1 := 0 }
  let tf := OnePoleFilter_SetCutoff F tf0 (GetToneFrequency F (1 / 2)) 44100
  { delayLineL := dl, delayLineR := dl, toneFilterL := tf, toneFilterR := tf,
    smoothedDelayTime := SmoothedValue_Init (GetDelayTimeSeconds (3 / 10)),
    smoothedFeedback := SmoothedValue_Init (GetFeedback (2 / 5)),
    smoothedMix := SmoothedValue_Init (1 / 2),
    smoothedTone := SmoothedValue_Init (1 / 2),
    param_time := 3 / 10, param_feedback := 2 / 5, param_mix := 1 / 2,
    param_tone := 1 / 2, param_saturation := 0 }

/-- The clamp of `v2_set_param` (lines 325-327): `atof` result clamped to [0,1]. -/
def clampQ (v : ℚ) : ℚ :=
  let v1 := if v < 0 then 0 else v
  if 1 < v1 then 1 else v1

/-- `RAMP_SAMPLES` (line 161): 2205 samples = 50 ms at 44.1 kHz. -/
def RAMP_SAMPLES : ℤ := 2205

/-- `v2_set_param` (lines 321-350).  `val` is the parsed `atof` value; keys
other than the five recognised ones leave the instance unchanged. -/
def v2_set_param (F : RealFuns) (i : Inst) (key : String) (val : ℚ) : Inst :=
  let v := clampQ val
  if key = "time" then
    { i with param_time := v,
             smoothedDelayTime :=
               SmoothedValue_SetTarget i.smoothedDelayTime (GetDelayTimeSeconds v) RAMP_SAMPLES }
  else if key = "feedback" then
    { i with param_feedback := v,
             smoothedFeedback :=
               SmoothedValue_SetTarget i.smoothedFeedback (GetFeedback v) RAMP_SAMPLES }
  else if key = "mix" then
    { i with param_mix := v,
             smoothedMix := SmoothedValue_SetTarget i.smoothedMix v RAMP_SAMPLES }
  else if key = "tone" then
    { i with param_tone := v,
             toneFilterL := OnePoleFilter_SetCutoff F i.toneFilterL (GetToneFrequency F v) 44100,
             toneFilterR := OnePoleFilter_SetCutoff F i.toneFilterR (GetToneFrequency F v) 44100 }
  else if key = "saturation" then
    { i with param_saturation := v }
  else i

/-- `v2_get_param` (lines 352-413) restricted to the float parameter keys:
returns the stored normalised value (which the C code prints with "%.2f");
unrecognised keys yield `none` (the C code returns -1). -/
def v2_get_param (i : Inst) (key : String) : Option ℚ :=
  if key = "time" then some i.param_time
  else if key = "feedback" then some i.param_feedback
  else if key = "mix" then some i.param_mix
  else if key = "tone" then some i.param_tone
  else if key = "saturation" then some i.param_saturation
  else none

/-! ## Per-frame processing (`v2_process_block`, lines 282-319) -/

/-- Output clipping (lines 312-313). -/
def clip1 (q : ℚ) : ℚ :=
  if 1 < q then 1 else if q < -1 then -1 else q

/-- The C cast `(int16_t)` of a float in int16 range truncates toward zero. -/
def truncQ (q : ℚ) : ℤ :=
  if q < 0 then -⌊-q⌋ else ⌊q⌋

/-- One loop iteration of `v2_process_block` (lines 286-318), instrumented:
besides the updated instance and the int16 output frame it records the float
inputs, the saturation-stage outputs, the feedback gain consumed this frame,
the values written into the delay lines, and the clipped float outputs. -/
structure FrameOut where
  inst : Inst
  outL : ℤ
  outR : ℤ
  outFL : ℚ
  outFR : ℚ
  inFL : ℚ
  inFR : ℚ
  satL : ℚ
  satR : ℚ
  writtenL : ℚ
  writtenR : ℚ
  fbUsed : ℚ

/-- One frame of `v2_process_block` (lines 286-318): advance the three
smoothed parameters once, then process channel 0 and channel 1 with them. -/
def frameStep (F : RealFuns) (i : Inst) (fr : ℤ × ℤ) : FrameOut :=
  let pd := SmoothedValue_GetNext i.smoothedDelayTime
  let pf := SmoothedValue_GetNext i.smoothedFeedback
  let pm := SmoothedValue_GetNext i.smoothedMix
  let delayTime := pd.1
  let feedback := pf.1
  let mix := pm.1
  let inL : ℚ := (fr.1 : ℚ) / 32768
  let dL := DelayLine_Read i.delayLineL delayTime
  let fL := OnePoleFilter_Process i.toneFilterL dL
  let satL := SoftSaturate F fL.1 i.param_saturation
  let wL := inL + satL * feedback
  let dlL := DelayLine_Write i.delayLineL wL
  let outFL := clip1 (inL * (1 - mix) + fL.1 * mix)
  let inR : ℚ := (fr.2 : ℚ) / 32768
  let dR := DelayLine_Read i.delayLineR delayTime
  let fR := OnePoleFilter_Process i.toneFilterR dR
  let satR := SoftSaturate F fR.1 i.param_saturation
  let wR := inR + satR * feedback
  let dlR := DelayLine_Write i.delayLineR wR
  let outFR := clip1 (inR * (1 - mix) + fR.1 * mix)
  { inst := { i with delayLineL := dlL, delayLineR := dlR,
                     toneFilterL := fL.2, toneFilterR := fR.2,
                     smoothedDelayTime := pd.2, smoothedFeedback := pf.2,
                     smoothedMix := pm.2 },
    outL := truncQ (outFL * 32767), outR := truncQ (outFR * 32767),
    outFL := outFL, outFR := outFR, inFL := inL, inFR := inR,
    satL := satL, satR := satR, writtenL := wL, writtenR := wR,
    fbUsed := feedback }

/-- `v2_process_block` (lines 282-319) on a list of int16 frames: the final
instance state and the transformed (in C: overwritten in place) frames. -/
def processBlock (F : RealFuns) (i : Inst) : List (ℤ × ℤ) → Inst × List (ℤ × ℤ)
  | [] => (i, [])
  | fr :: rest =>
    let fo := frameStep F i fr
    let r := processBlock F fo.inst rest
    (r.1, (fo.outL, fo.outR) :: r.2)

/-- The per-frame instrumentation trace of `v2_process_block`. -/
def traces (F : RealFuns) (i : Inst) : List (ℤ × ℤ) → List FrameOut
  | [] => []
  | fr :: rest =>
    let fo := frameStep F i fr
    fo :: traces F fo.inst rest

/-- Computable stand-ins for the C library transcendentals, used only to
instantiate theorems at concrete inputs.  The facts relied on — value at the
specific arguments, strict monotonicity (hence injectivity) of `exp` and of
`powf(24, ·)`, `tanh 0 = 0` — hold for the genuine `expf`/`tanhf`/`powf`. -/
def stdFuns : RealFuns :=
  { exp := fun x => if x < 0 then 1 / (1 - x) else 1 + x,
    tanh := fun x => x / (1 + |x|),
    pow24 := fun v => 1 + 23 * v }

/-! ## Basic lemmas -/

lemma set_param_unknown (F : RealFuns) (i : Inst) (key : String) (val : ℚ)
    (h1 : key ≠ "time") (h2 : key ≠ "feedback") (h3 : key ≠ "mix")
    (h4 : key ≠ "tone") (h5 : key ≠ "saturation") :
    v2_set_param F i key val = i := by
  simp [v2_set_param, h1, h2, h3, h4, h5]

/-- C4: an instance on which `stereo_width` was never set behaves exactly like
one on which `setParameter("stereo_width", v)` was called: the key is not
recognised by `v2_set_param` (lines 329-349), so the call leaves the instance
unchanged and every subsequent `processBlock` run produces identical output
samples and identical final state. -/
theorem C4_default_width_noop (F : RealFuns) (i : Inst) (v : ℚ) (ins : List (ℤ × ℤ)) :
    processBlock F (v2_set_param F i "stereo_width" v) ins = processBlock F i ins := by
  rw [set_param_unknown F i "stereo_width" v (by decide) (by decide) (by decide)
    (by decide) (by decide)]

/-- C3 counterexample: the claim promises, for every recognised key in the
listed seven (which include `stereo_width`), that `setParameter(k, v)`
followed by `getParameter(k)` returns `clamp(v, 0, 1)`.  On the code,
`stereo_width` is not a recognised key of `v2_set_param`/`v2_get_param`:
setting it is a no-op and reading it reports "not found" rather than the
clamped value.  Concrete input: a fresh instance, k = "stereo_width",
v = 1/2. -/
theorem C3_roundtrip_counterexample :
    v2_get_param (v2_set_param stdFuns (v2_create_instance stdFuns) "stereo_width" (1 / 2))
        "stereo_width" ≠ some (clampQ (1 / 2)) := by
  rw [set_param_unknown stdFuns _ "stereo_width" (1 / 2) (by decide) (by decide) (by decide)
    (by decide) (by decide)]
  simp [v2_get_param]

/-- C3 amended: for every key `k` that `v2_set_param`/`v2_get_param` actually
recognise — time, feedback, mix, tone, saturation (`flutter` and
`stereo_width` are not implemented) — and every value `v`, setting then
getting on any instance returns `clamp(v, 0, 1)` exactly. -/
theorem C3_roundtrip_amended (F : RealFuns) (i : Inst) (k : String) (v : ℚ)
    (hk : k = "time" ∨ k = "feedback" ∨ k = "mix" ∨ k = "tone" ∨ k = "saturation") :
    v2_get_param (v2_set_param F i k v) k = some (clampQ v) := by
  rcases hk with h | h | h | h | h <;> subst h <;> simp [v2_set_param, v2_get_param]

theorem C3_roundtrip_amended_witness :
    ("mix" = "time" ∨ "mix" = "feedback" ∨ "mix" = "mix" ∨ "mix" = "tone" ∨
        "mix" = "saturation") ∧
      v2_get_param (v2_set_param stdFuns (v2_create_instance stdFuns) "mix" 7) "mix" =
        some (clampQ 7) :=
  ⟨Or.inr (Or.inr (Or.inl rfl)),
   C3_roundtrip_amended stdFuns (v2_create_instance stdFuns) "mix" 7
     (Or.inr (Or.inr (Or.inl rfl)))⟩

/-! ## C6: SmoothedValue ramp behaviour -/

lemma afterN_state (sv : SmoothedValue) (t : ℚ) (n : ℤ) (hn : 0 < n) (k : ℕ)
    (hk : (k : ℤ) ≤ n) :
    SmoothedValue_afterN (SmoothedValue_SetTarget sv t n) k =
      { currentValue := sv.currentValue + k * ((t - sv.currentValue) / n),
        targetValue := t, step := (t - sv.currentValue) / n, stepsRemaining := n - k } := by
  induction k with
  | zero =>
    simp [SmoothedValue_afterN, SmoothedValue_SetTarget, hn]
  | succ m ih =>
    have hm : (m : ℤ) ≤ n := le_trans (by exact_mod_cast Nat.le_succ m) hk
    rw [SmoothedValue_afterN, ih hm]
    have hrem : (0 : ℤ) < n - m := by
      have : ((m : ℤ) + 1) ≤ n := by exact_mod_cast hk
      omega
    by_cases hlast : n - (m : ℤ) - 1 = 0
    · have hnm : (m : ℤ) + 1 = n := by omega
      have hstep : sv.currentValue + (m + 1 : ℕ) * ((t - sv.currentValue) / n) = t := by
        have hq : ((m : ℚ) + 1) = (n : ℚ) := by exact_mod_cast hnm
        have hnq : (n : ℚ) ≠ 0 := by
          exact_mod_cast hn.ne'
        push_cast
        rw [hq]
        field_simp
      simp only [SmoothedValue_GetNext, hrem, if_pos hrem, hlast, if_pos rfl]
      have : n - (m : ℤ) - 1 = n - ((m : ℕ) + 1 : ℕ) := by push_cast; ring
      rw [SmoothedValue.mk.injEq]
      refine ⟨hstep.symm, rfl, rfl, by push_cast; omega⟩
    · simp only [SmoothedValue_GetNext, if_pos hrem, hlast, if_neg hlast]
      rw [SmoothedValue.mk.injEq]
      refine ⟨by push_cast; ring, rfl, rfl, by push_cast; omega⟩

lemma afterN_settled (sv : SmoothedValue) (h : sv.stepsRemaining = 0) (k : ℕ) :
    SmoothedValue_afterN sv k = sv := by
  induction k with
  | zero => rfl
  | succ m ih => rw [SmoothedValue_afterN, ih, SmoothedValue_GetNext, h]; simp

/-- C6: after `setTarget(t, n)` with `n > 0`, the k-th `next()` call
(1 ≤ k ≤ n) returns `current₀ + k·step` with the fixed step
`(t − current₀)/n`, and from the n-th call onward every call returns exactly
`t` (the code snaps `currentValue` to `targetValue` when the counter reaches
zero, and exact arithmetic makes `current₀ + n·step = t`); after
`setTarget(t, n)` with `n ≤ 0` the value is `t` immediately, on this and all
later calls. -/
theorem C6_smoothed_ramp (sv : SmoothedValue) (t : ℚ) (n : ℤ) :
    (0 < n →
      (∀ k : ℕ, 1 ≤ k → (k : ℤ) ≤ n →
        (SmoothedValue_afterN (SmoothedValue_SetTarget sv t n) k).currentValue =
          sv.currentValue + k * ((t - sv.currentValue) / n)) ∧
      (∀ m : ℕ, n ≤ (m : ℤ) →
        (SmoothedValue_afterN (SmoothedValue_SetTarget sv t n) m).currentValue = t)) ∧
    (n ≤ 0 → ∀ m : ℕ,
      (SmoothedValue_afterN (SmoothedValue_SetTarget sv t n) m).currentValue = t) := by
  constructor
  · intro hn
    constructor
    · intro k _ hk
      rw [afterN_state sv t n hn k hk]
    · intro m hm
      obtain ⟨j, hj⟩ : ∃ j : ℕ, (m : ℤ) = n + j := by
        refine ⟨(m - n.toNat : ℕ), ?_⟩
        have h1 : n.toNat ≤ m := by omega
        push_cast [h1]
        omega
      have hj2 : m = n.toNat + j := by omega
      subst hj2
      have hsplit : ∀ s : SmoothedValue, ∀ a b : ℕ,
          SmoothedValue_afterN s (a + b) =
            SmoothedValue_afterN (SmoothedValue_afterN s a) b := by
        intro s a b
        induction b with
        | zero => rfl
        | succ c ih => rw [← Nat.add_assoc, SmoothedValue_afterN, ih, SmoothedValue_afterN]
      rw [hsplit]
      have hstate := afterN_state sv t n hn n.toNat (by omega)
      have hzero : ((SmoothedValue_afterN (SmoothedValue_SetTarget sv t n) n.toNat)).stepsRemaining = 0 := by
        rw [hstate]; simp; omega
      rw [afterN_settled _ hzero, hstate]
      have hnq : (n : ℚ) ≠ 0 := by
        have : (0 : ℤ) ≠ n := ne_of_lt hn
        exact_mod_cast this.symm
      have : ((n.toNat : ℕ) : ℚ) = (n : ℚ) := by
        have : ((n.toNat : ℤ) : ℚ) = (n : ℚ) := by norm_cast; omega
        exact_mod_cast this
      simp only [this]
      field_simp
  · intro hn m
    have hstate : SmoothedValue_SetTarget sv t n =
        { currentValue := t, targetValue := t, step := 0, stepsRemaining := 0 } := by
      rw [SmoothedValue_SetTarget, if_neg (by omega)]
    rw [hstate, afterN_settled _ rfl]

theorem C6_smoothed_ramp_witness :
    (0 : ℤ) < 4 ∧
      (SmoothedValue_afterN
          (SmoothedValue_SetTarget
            { currentValue := 2, targetValue := 2, step := 0, stepsRemaining := 0 } 10 4)
          1).currentValue = 2 + 1 * ((10 - 2) / 4) :=
  ⟨by decide,
   ((C6_smoothed_ramp
        { currentValue := 2, targetValue := 2, step := 0, stepsRemaining := 0 } 10 4).1
      (by decide)).1 1 (by decide) (by decide)⟩

/-! ## C8: SoftSaturate contract -/

lemma abs_tanh_lt_one (y : ℝ) : |Real.tanh y| < 1 := by
  have hc : 0 < Real.cosh y := Real.cosh_pos y
  have hsq : Real.sinh y ^ 2 < Real.cosh y ^ 2 := by
    rw [Real.cosh_sq]; linarith
  have habs : |Real.sinh y| < Real.cosh y := by
    have h1 : |Real.sinh y| ^ 2 < Real.cosh y ^ 2 := by rwa [sq_abs]
    exact lt_of_pow_lt_pow_left₀ 2 hc.le h1
  rw [Real.tanh_eq_sinh_div_cosh, abs_div, abs_of_pos hc, div_lt_one hc]
  exact habs

/-- C8: `saturate(x, amount)` is the identity when `amount ≤ 0`; for
`amount > 0` and `drive = 1 + amount·3` it equals `tanh(x·drive)/drive`, is
odd-symmetric, and satisfies `|saturate(x, amount)| < 1/drive ≤ 1` for every
(finite) real `x`. -/
theorem C8_soft_saturate (x amount : ℝ) :
    (amount ≤ 0 → SoftSaturateR x amount = x) ∧
    (0 < amount →
      SoftSaturateR x amount = Real.tanh (x * (1 + amount * 3)) / (1 + amount * 3) ∧
      SoftSaturateR (-x) amount = -SoftSaturateR x amount ∧
      |SoftSaturateR x amount| < 1 / (1 + amount * 3) ∧
      1 / (1 + amount * 3) ≤ 1) := by
  constructor
  · intro h
    simp [SoftSaturateR, h]
  · intro h
    have hns : ¬ amount ≤ 0 := not_le.mpr h
    have hd : (0 : ℝ) < 1 + amount * 3 := by linarith
    refine ⟨by simp [SoftSaturateR, hns], ?_, ?_, ?_⟩
    · simp only [SoftSaturateR, if_neg hns, neg_mul, Real.tanh_neg, neg_div]
    · simp only [SoftSaturateR, if_neg hns, abs_div, abs_of_pos hd]
      exact div_lt_div_of_pos_right (abs_tanh_lt_one _) hd
    · rw [div_le_one hd]; linarith

theorem C8_soft_saturate_witness :
    ((-1 : ℝ) ≤ 0 ∧ SoftSaturateR 1 (-1) = 1) ∧
      ((0 : ℝ) < 1 ∧ |SoftSaturateR 2 1| < 1 / (1 + 1 * 3)) :=
  ⟨⟨by norm_num, (C8_soft_saturate 1 (-1)).1 (by norm_num)⟩,
   ⟨by norm_num, ((C8_soft_saturate 2 1).2 (by norm_num)).2.2.1⟩⟩

/-! ## C7: which parameters are ramp-driven -/

/-- The linear ramp consistency invariant that every `SmoothedValue` produced
by `Init`/`SetTarget`/`GetNext` satisfies: the remaining steps times the step
reach the target exactly. -/
def SVconsistent (sv : SmoothedValue) : Prop :=
  sv.currentValue + sv.stepsRemaining * sv.step = sv.targetValue

/-- C7 counterexample: the claim says a `setParameter("tone", v)` call never
makes the filter coefficients jump to the new cutoff in a single step (the
tone-derived cutoff being ramp-driven like the other parameters).  On the
code, the `tone` branch of `v2_set_param` (lines 341-346) calls
`OnePoleFilter_SetCutoff` directly, so the coefficients change within the
single call: on a fresh instance (tone 0.5), `set_param("tone", 1)` changes
`b1` immediately (`smoothedTone` is never consulted by any processing path).
Instantiated with the computable transcendental stand-ins; the inequality
only uses injectivity of `exp` and of `powf(24, ·)`, which the C library
functions share. -/
theorem C7_tone_jump_counterexample :
    (v2_set_param stdFuns (v2_create_instance stdFuns) "tone" 1).toneFilterL.b1 ≠
      (v2_create_instance stdFuns).toneFilterL.b1 := by
  simp [v2_set_param, v2_create_instance, OnePoleFilter_SetCutoff, GetToneFrequency,
    stdFuns, clampQ]
  norm_num

/-- C7 amended: the three parameters that are ramp-driven — delay time,
feedback, mix — change by at most one ramp step per sample: for any
consistently-ramped `SmoothedValue` state, one `GetNext` call moves the
current value by at most `|step|`.  The tone-derived filter cutoff is NOT
ramp-driven: `setParameter("tone", v)` rewrites both channels' coefficients
to the new cutoff immediately, in a single step (and the `smoothedTone`
member is never read by the processing code). -/
theorem C7_ramp_amended (F : RealFuns) (sv : SmoothedValue) (hsv : SVconsistent sv)
    (i : Inst) (v : ℚ) :
    |(SmoothedValue_GetNext sv).1 - sv.currentValue| ≤ |sv.step| ∧
    (v2_set_param F i "tone" v).toneFilterL =
      OnePoleFilter_SetCutoff F i.toneFilterL (GetToneFrequency F (clampQ v)) 44100 ∧
    (v2_set_param F i "tone" v).toneFilterR =
      OnePoleFilter_SetCutoff F i.toneFilterR (GetToneFrequency F (clampQ v)) 44100 := by
  refine ⟨?_, by simp [v2_set_param], by simp [v2_set_param]⟩
  rw [SmoothedValue_GetNext]
  by_cases hrem : 0 < sv.stepsRemaining
  · rw [if_pos hrem]
    by_cases hlast : sv.stepsRemaining - 1 = 0
    · have h1 : sv.stepsRemaining = 1 := by omega
      have h2 : sv.targetValue = sv.currentValue + sv.step := by
        rw [← hsv, h1]; push_cast; ring
      simp only [hlast, if_pos rfl, h2]
      simp
    · simp only [if_neg hlast]
      simp
  · rw [if_neg hrem]
    simp

theorem C7_ramp_amended_witness :
    SVconsistent { currentValue := 2, targetValue := 5, step := 1, stepsRemaining := 3 } ∧
      (|(SmoothedValue_GetNext
            { currentValue := 2, targetValue := 5, step := 1, stepsRemaining := 3 }).1 -
          (2 : ℚ)| ≤ |(1 : ℚ)| ∧
        (v2_set_param stdFuns (v2_create_instance stdFuns) "tone" 1).toneFilterL =
          OnePoleFilter_SetCutoff stdFuns (v2_create_instance stdFuns).toneFilterL
            (GetToneFrequency stdFuns (clampQ 1)) 44100 ∧
        (v2_set_param stdFuns (v2_create_instance stdFuns) "tone" 1).toneFilterR =
          OnePoleFilter_SetCutoff stdFuns (v2_create_instance stdFuns).toneFilterR
            (GetToneFrequency stdFuns (clampQ 1)) 44100) :=
  ⟨by norm_num [SVconsistent],
   C7_ramp_amended stdFuns
     { currentValue := 2, targetValue := 5, step := 1, stepsRemaining := 3 }
     (by norm_num [SVconsistent]) (v2_create_instance stdFuns) 1⟩

/-! ## C10: DelayLine access safety -/

lemma clampedDelay_bounds (dl : DelayLine) (T : ℚ) (hL : 2 ≤ dl.bufferLength) :
    1 ≤ DelayLine_clampedDelay dl T ∧
      DelayLine_clampedDelay dl T ≤ (dl.bufferLength : ℚ) - 1 := by
  have hL1 : (1 : ℚ) ≤ (dl.bufferLength : ℚ) - 1 := by
    have : (2 : ℚ) ≤ (dl.bufferLength : ℚ) := by exact_mod_cast hL
    linarith
  rw [DelayLine_clampedDelay]
  by_cases h0 : T * dl.sampleRate < 1
  · rw [if_pos h0]
    by_cases h1 : ((dl.bufferLength : ℚ) - 1) < 1
    · exact absurd hL1 (not_le.mpr h1)
    · rw [if_neg h1]; exact ⟨le_refl 1, hL1⟩
  · rw [if_neg h0]
    by_cases h1 : ((dl.bufferLength : ℚ) - 1) < T * dl.sampleRate
    · rw [if_pos h1]; exact ⟨hL1, le_refl _⟩
    · rw [if_neg h1]; exact ⟨not_lt.mp h0, not_lt.mp h1⟩

lemma readPos_bounds (dl : DelayLine) (T : ℚ) (hL : 2 ≤ dl.bufferLength)
    (hw : dl.writePosition < dl.bufferLength) :
    0 ≤ DelayLine_readPos dl T ∧ DelayLine_readPos dl T < (dl.bufferLength : ℚ) := by
  obtain ⟨hc1, hc2⟩ := clampedDelay_bounds dl T hL
  have hwq : (dl.writePosition : ℚ) ≤ (dl.bufferLength : ℚ) - 1 := by
    have : (dl.writePosition : ℚ) + 1 ≤ (dl.bufferLength : ℚ) := by exact_mod_cast hw
    linarith
  have hw0 : (0 : ℚ) ≤ (dl.writePosition : ℚ) := by positivity
  rw [DelayLine_readPos]
  by_cases hneg : (dl.writePosition : ℚ) - DelayLine_clampedDelay dl T < 0
  · rw [if_pos hneg]
    constructor
    · linarith
    · linarith
  · rw [if_neg hneg]
    constructor
    · linarith [not_lt.mp hneg]
    · linarith

/-- C10: delay-line accesses stay in bounds.  `write` stores at the write
cursor and advances it modulo the capacity, preserving cursor ∈ [0, capacity)
(the cursor is a `ℕ`, so 0 ≤ cursor holds by type); for every
`delayTimeSeconds` and every cursor in range, `read` clamps the
delay-in-samples to [1, capacity−1], so both integer interpolation indices it
dereferences lie in [0, capacity) (as naturals, 0 ≤ index by type), and the
first read index — the sample the interpolation is anchored on — never
coincides with the write cursor's cell, the about-to-be-overwritten slot. -/
theorem C10_delayline_safety (dl : DelayLine) (s T : ℚ)
    (hL : 2 ≤ dl.bufferLength) (hw : dl.writePosition < dl.bufferLength) :
    ((DelayLine_Write dl s).buffer dl.writePosition = s ∧
      (DelayLine_Write dl s).writePosition < dl.bufferLength) ∧
    (1 ≤ DelayLine_clampedDelay dl T ∧
      DelayLine_clampedDelay dl T ≤ (dl.bufferLength : ℚ) - 1) ∧
    (0 ≤ DelayLine_readIndex0 dl T ∧
      DelayLine_readIndex0 dl T < (dl.bufferLength : ℤ) ∧
      0 ≤ DelayLine_readIndex1 dl T ∧
      DelayLine_readIndex1 dl T < (dl.bufferLength : ℤ) ∧
      DelayLine_readIndex0 dl T ≠ (dl.writePosition : ℤ)) := by
  obtain ⟨hr0, hr1⟩ := readPos_bounds dl T hL hw
  obtain ⟨hc1, hc2⟩ := clampedDelay_bounds dl T hL
  have hLz : (0 : ℤ) < (dl.bufferLength : ℤ) := by exact_mod_cast Nat.lt_of_lt_of_le Nat.zero_lt_two hL
  refine ⟨⟨?_, ?_⟩, ⟨hc1, hc2⟩, ?_, ?_, ?_, ?_, ?_⟩
  · rw [DelayLine_Write]
    simp [Function.update]
  · rw [DelayLine_Write]
    by_cases hwrap : dl.bufferLength ≤ dl.writePosition + 1
    · simpa [hwrap] using Nat.lt_of_lt_of_le Nat.zero_lt_two hL
    · simpa [hwrap] using not_le.mp hwrap
  · exact Int.floor_nonneg.mpr hr0
  · exact Int.floor_lt.mpr (by exact_mod_cast hr1)
  · exact Int.emod_nonneg _ (ne_of_gt hLz)
  · exact Int.emod_lt_of_pos _ hLz
  · rw [DelayLine_readIndex0, DelayLine_readPos]
    by_cases hneg : (dl.writePosition : ℚ) - DelayLine_clampedDelay dl T < 0
    · rw [if_pos hneg]
      have hge : (dl.writePosition : ℚ) + 1 ≤
          (dl.writePosition : ℚ) - DelayLine_clampedDelay dl T + (dl.bufferLength : ℚ) := by
        linarith
      have hfl : ((dl.writePosition : ℤ) + 1 : ℤ) ≤
          ⌊(dl.writePosition : ℚ) - DelayLine_clampedDelay dl T + (dl.bufferLength : ℚ)⌋ := by
        apply Int.le_floor.mpr
        push_cast
        exact hge
      omega
    · rw [if_neg hneg]
      have hle : (dl.writePosition : ℚ) - DelayLine_clampedDelay dl T ≤
          (dl.writePosition : ℚ) - 1 := by linarith
      have hfl : ⌊(dl.writePosition : ℚ) - DelayLine_clampedDelay dl T⌋ ≤
          (dl.writePosition : ℤ) - 1 := by
        apply (Int.floor_le_floor hle).trans
        rw [show ((dl.writePosition : ℚ) - 1) = (((dl.writePosition : ℤ) - 1 : ℤ) : ℚ) by push_cast; ring]
        rw [Int.floor_intCast]
      omega

theorem C10_delayline_safety_witness :
    (2 ≤ 88200 ∧ 17 < 88200) ∧
      ((DelayLine_Write
            { buffer := fun _ => 0, bufferLength := 88200, writePosition := 17,
              sampleRate := 44100 } (3 / 2)).buffer 17 = 3 / 2 ∧
        (DelayLine_Write
            { buffer := fun _ => 0, bufferLength := 88200, writePosition := 17,
              sampleRate := 44100 } (3 / 2)).writePosition < 88200) ∧
      (1 ≤ DelayLine_clampedDelay
          { buffer := fun _ => 0, bufferLength := 88200, writePosition := 17,
            sampleRate := 44100 } 5 ∧
        DelayLine_clampedDelay
          { buffer := fun _ => 0, bufferLength := 88200, writePosition := 17,
            sampleRate := 44100 } 5 ≤ (88200 : ℚ) - 1) ∧
      (0 ≤ DelayLine_readIndex0
          { buffer := fun _ => 0, bufferLength := 88200, writePosition := 17,
            sampleRate := 44100 } 5 ∧
        DelayLine_readIndex0
          { buffer := fun _ => 0, bufferLength := 88200, writePosition := 17,
            sampleRate := 44100 } 5 < (88200 : ℤ) ∧
        0 ≤ DelayLine_readIndex1
          { buffer := fun _ => 0, bufferLength := 88200, writePosition := 17,
            sampleRate := 44100 } 5 ∧
        DelayLine_readIndex1
          { buffer := fun _ => 0, bufferLength := 88200, writePosition := 17,
            sampleRate := 44100 } 5 < (88200 : ℤ) ∧
        DelayLine_readIndex0
          { buffer := fun _ => 0, bufferLength := 88200, writePosition := 17,
            sampleRate := 44100 } 5 ≠ ((17 : ℕ) : ℤ)) :=
  ⟨⟨by norm_num, by norm_num⟩,
   C10_delayline_safety
     { buffer := fun _ => 0, bufferLength := 88200, writePosition := 17, sampleRate := 44100 }
     (3 / 2) 5 (by norm_num) (by norm_num)⟩

/-! ## C1/C2: with `stereo_width` unimplemented, the channels are fully
independent, so a left-only impulse leaves the right output identically 0. -/

/-- A right channel with silent state: zero delay buffer, zero filter state,
and no saturation drive (the scenario never sets `saturation`, so the
identity branch of `SoftSaturate` applies). -/
def RightQuiet (i : Inst) : Prop :=
  (∀ j, i.delayLineR.buffer j = 0) ∧ i.toneFilterR.z1 = 0 ∧ i.param_saturation ≤ 0

lemma read_zero_buffer (dl : DelayLine) (T : ℚ) (h : ∀ j, dl.buffer j = 0) :
    DelayLine_Read dl T = 0 := by
  rw [DelayLine_Read]
  simp [h]

lemma frameStep_rightQuiet (F : RealFuns) (i : Inst) (fr : ℤ × ℤ)
    (hq : RightQuiet i) (hin : fr.2 = 0) :
    RightQuiet (frameStep F i fr).inst ∧ (frameStep F i fr).outR = 0 := by
  obtain ⟨hbuf, hz, hsat⟩ := hq
  have hread : DelayLine_Read i.delayLineR (SmoothedValue_GetNext i.smoothedDelayTime).1 = 0 :=
    read_zero_buffer _ _ hbuf
  have hfil : (OnePoleFilter_Process i.toneFilterR
      (DelayLine_Read i.delayLineR (SmoothedValue_GetNext i.smoothedDelayTime).1)).1 = 0 := by
    rw [hread, OnePoleFilter_Process]
    simp [hz]
  have hsat0 : SoftSaturate F (OnePoleFilter_Process i.toneFilterR
      (DelayLine_Read i.delayLineR (SmoothedValue_GetNext i.smoothedDelayTime).1)).1
      i.param_saturation = 0 := by
    rw [hfil, SoftSaturate, if_pos hsat]
  have hinq : ((fr.2 : ℚ) / 32768) = 0 := by rw [hin]; norm_num
  constructor
  · refine ⟨?_, ?_, ?_⟩
    · intro j
      simp only [frameStep, DelayLine_Write, hsat0, hinq]
      simp only [Function.update]
      by_cases hj : j = i.delayLineR.writePosition
      · simp [hj, hbuf]
      · simp [hj, hbuf j]
    · simp only [frameStep, hfil, OnePoleFilter_Process, hread]
      simp [hz]
    · simp only [frameStep]
      exact hsat
  · simp only [frameStep, hfil, hinq, hsat0]
    norm_num [clip1, truncQ]

lemma processBlock_rightQuiet (F : RealFuns) (ins : List (ℤ × ℤ)) (i : Inst)
    (hq : RightQuiet i) (hin : ∀ fr ∈ ins, fr.2 = 0) :
    RightQuiet (processBlock F i ins).1 ∧
      ∀ n : ℕ, ((processBlock F i ins).2.getD n (0, 0)).2 = 0 := by
  induction ins generalizing i with
  | nil =>
    refine ⟨hq, ?_⟩
    intro n
    simp [processBlock]
  | cons fr rest ih =>
    have hfr : fr.2 = 0 := hin fr (List.mem_cons_self fr rest)
    have hrest : ∀ g ∈ rest, g.2 = 0 := fun g hg => hin g (List.mem_cons_of_mem fr hg)
    obtain ⟨hq2, hout⟩ := frameStep_rightQuiet F i fr hq hfr
    obtain ⟨hq3, houts⟩ := ih (frameStep F i fr).inst hq2 hrest
    refine ⟨by simpa [processBlock] using hq3, ?_⟩
    intro n
    cases n with
    | zero => simpa [processBlock] using hout
    | succ m => simpa [processBlock] using houts m

lemma set_param_preserves_quietR (F : RealFuns) (i : Inst) (key : String) (v : ℚ)
    (hkey : key ≠ "saturation") (hq : RightQuiet i) :
    RightQuiet (v2_set_param F i key v) := by
  obtain ⟨hbuf, hz, hsat⟩ := hq
  rw [v2_set_param]
  by_cases h1 : key = "time"
  · simp only [h1]; exact ⟨hbuf, hz, hsat⟩
  by_cases h2 : key = "feedback"
  · simp only [if_neg h1, h2]; exact ⟨hbuf, hz, hsat⟩
  by_cases h3 : key = "mix"
  · simp only [if_neg h1, if_neg h2, h3]; exact ⟨hbuf, hz, hsat⟩
  by_cases h4 : key = "tone"
  · simp only [if_neg h1, if_neg h2, if_neg h3, h4, if_pos rfl]
    exact ⟨hbuf, hz, hsat⟩
  · simp only [if_neg h1, if_neg h2, if_neg h3, if_neg h4, if_neg hkey]
    exact ⟨hbuf, hz, hsat⟩

lemma create_quietR (F : RealFuns) : RightQuiet (v2_create_instance F) := by
  refine ⟨fun j => rfl, ?_, le_refl 0⟩
  rw [v2_create_instance]
  simp [OnePoleFilter_SetCutoff]

lemma replicate_right_zero (m : ℕ) :
    ∀ fr ∈ List.replicate m ((0 : ℤ), (0 : ℤ)), fr.2 = 0 := by
  intro fr hfr
  rw [List.eq_of_mem_replicate hfr]

lemma impulse_right_zero (a : ℤ) (m : ℕ) :
    ∀ fr ∈ (a, (0 : ℤ)) :: List.replicate m ((0 : ℤ), (0 : ℤ)), fr.2 = 0 := by
  intro fr hfr
  rcases List.mem_cons.mp hfr with h | h
  · rw [h]
  · rw [List.eq_of_mem_replicate h]

/-- C1 (evaluating the code at the failing input): the repository's own
ping-pong test configures mix=1, feedback=0, tone=1, stereo_width="100"
(parsed 100, clamped 1), lets 3000 silent frames settle, then feeds a
left-only impulse of 30000 and expects the first echo on the right channel
(right ≥ 1000, ≥ 15000 after compensation; left ≤ 500).  But `v2_set_param`
does not recognise `stereo_width`, the two channels are processed fully
independently, and the right channel starts and stays silent: every sample of
the right output channel is exactly 0 — in particular at the expected delay
frame, contradicting the claimed right-channel echo. -/
theorem C1_pingpong_right_silent (F : RealFuns) (n : ℕ) :
    ((processBlock F
          (processBlock F
            (v2_set_param F
              (v2_set_param F
                (v2_set_param F
                  (v2_set_param F (v2_create_instance F) "mix" 1)
                  "feedback" 0)
                "tone" 1)
              "stereo_width" 100)
            (List.replicate 3000 ((0 : ℤ), (0 : ℤ)))).1
          ((30000, (0 : ℤ)) :: List.replicate 19999 ((0 : ℤ), (0 : ℤ)))).2.getD n
        (0, 0)).2 = 0 := by
  have h0 := create_quietR F
  have h1 := set_param_preserves_quietR F _ "mix" 1 (by decide) h0
  have h2 := set_param_preserves_quietR F _ "feedback" 0 (by decide) h1
  have h3 := set_param_preserves_quietR F _ "tone" 1 (by decide) h2
  have h4 := set_param_preserves_quietR F _ "stereo_width" 100 (by decide) h3
  have h5 := (processBlock_rightQuiet F (List.replicate 3000 ((0 : ℤ), (0 : ℤ))) _ h4
    (replicate_right_zero 3000)).1
  exact (processBlock_rightQuiet F _ _ h5 (impulse_right_zero 30000 19999)).2 n

/-- C2 (evaluating the code at the failing input): with mix=1, feedback=0,
tone=1, stereo_width="0" and a left-only impulse of 30000, the claim expects
an equal-level echo on both output channels (|L−R| ≤ 500, each at least a
majority of the compensated input level).  But `stereo_width` is not a
recognised key, there is no crossfeed or mono summing in `v2_process_block`,
and the right channel receives no signal at all: every right output sample is
exactly 0, so at the expected delay frame the right magnitude is 0 while the
left carries the whole echo — the claimed mono behaviour does not hold. -/
theorem C2_width_zero_right_silent (F : RealFuns) (n : ℕ) :
    ((processBlock F
          (processBlock F
            (v2_set_param F
              (v2_set_param F
                (v2_set_param F
                  (v2_set_param F (v2_create_instance F) "mix" 1)
                  "feedback" 0)
                "tone" 1)
              "stereo_width" 0)
            (List.replicate 3000 ((0 : ℤ), (0 : ℤ)))).1
          ((30000, (0 : ℤ)) :: List.replicate 19999 ((0 : ℤ), (0 : ℤ)))).2.getD n
        (0, 0)).2 = 0 := by
  have h0 := create_quietR F
  have h1 := set_param_preserves_quietR F _ "mix" 1 (by decide) h0
  have h2 := set_param_preserves_quietR F _ "feedback" 0 (by decide) h1
  have h3 := set_param_preserves_quietR F _ "tone" 1 (by decide) h2
  have h4 := set_param_preserves_quietR F _ "stereo_width" 0 (by decide) h3
  have h5 := (processBlock_rightQuiet F (List.replicate 3000 ((0 : ℤ), (0 : ℤ))) _ h4
    (replicate_right_zero 3000)).1
  exact (processBlock_rightQuiet F _ _ h5 (impulse_right_zero 30000 19999)).2 n

/-! ## C9: the feedback gain is capped at 0.95 in every reachable state -/

/-- Invariant of the feedback smoother: current and target lie in
[0, 0.95] (= [0, 19/20], the image of `GetFeedback` on clamped values), the
remaining-steps counter is nonnegative, and the ramp is consistent: stepping
`stepsRemaining` more times by `step` lands exactly on the target. -/
def FbOK (sv : SmoothedValue) : Prop :=
  0 ≤ sv.currentValue ∧ sv.currentValue ≤ 19 / 20 ∧
  0 ≤ sv.targetValue ∧ sv.targetValue ≤ 19 / 20 ∧
  sv.currentValue + sv.stepsRemaining * sv.step = sv.targetValue ∧
  0 ≤ sv.stepsRemaining

/-- The states an instance can be in: freshly created, or reached from a
reachable state by a `set_param` call (any key string, any parsed value) or
by processing any block of frames. -/
inductive Reachable (F : RealFuns) : Inst → Prop
  | create : Reachable F (v2_create_instance F)
  | set (i : Inst) (key : String) (v : ℚ) :
      Reachable F i → Reachable F (v2_set_param F i key v)
  | proc (i : Inst) (ins : List (ℤ × ℤ)) :
      Reachable F i → Reachable F (processBlock F i ins).1

lemma clampQ_bounds (v : ℚ) : 0 ≤ clampQ v ∧ clampQ v ≤ 1 := by
  rw [clampQ]
  by_cases h0 : v < 0
  · norm_num [h0]
  · by_cases h1 : 1 < v
    · norm_num [h0, h1]
    · norm_num [h0, h1]
      exact ⟨not_lt.mp h0, not_lt.mp h1⟩

lemma getNext_settled_eq (sv : SmoothedValue) (h : ¬ 0 < sv.stepsRemaining) :
    SmoothedValue_GetNext sv = (sv.currentValue, sv) := by
  rw [SmoothedValue_GetNext, if_neg h]

lemma getNext_last_eq (sv : SmoothedValue) (h : sv.stepsRemaining = 1) :
    SmoothedValue_GetNext sv =
      (sv.targetValue, { sv with currentValue := sv.targetValue, stepsRemaining := 0 }) := by
  rw [SmoothedValue_GetNext, if_pos (by omega)]
  simp [h]

lemma getNext_mid_eq (sv : SmoothedValue) (h : 0 < sv.stepsRemaining)
    (h2 : sv.stepsRemaining ≠ 1) :
    SmoothedValue_GetNext sv =
      (sv.currentValue + sv.step,
       { sv with currentValue := sv.currentValue + sv.step,
                 stepsRemaining := sv.stepsRemaining - 1 }) := by
  rw [SmoothedValue_GetNext, if_pos h]
  have hne : sv.stepsRemaining - 1 ≠ 0 := by omega
  simp [hne]

lemma fbok_next (sv : SmoothedValue) (h : FbOK sv) :
    FbOK (SmoothedValue_GetNext sv).2 ∧
      0 ≤ (SmoothedValue_GetNext sv).1 ∧ (SmoothedValue_GetNext sv).1 ≤ 19 / 20 := by
  obtain ⟨hc0, hc1, ht0, ht1, hinv, hr⟩ := h
  by_cases hrem : 0 < sv.stepsRemaining
  · by_cases hlast : sv.stepsRemaining = 1
    · rw [getNext_last_eq sv hlast]
      exact ⟨⟨ht0, ht1, ht0, ht1, by push_cast; ring, le_refl 0⟩, ht0, ht1⟩
    · rw [getNext_mid_eq sv hrem hlast]
      have hr1 : (1 : ℚ) ≤ (sv.stepsRemaining : ℚ) := by exact_mod_cast hrem
      have hcb : 0 ≤ sv.currentValue + sv.step ∧ sv.currentValue + sv.step ≤ 19 / 20 := by
        rcases le_or_lt 0 sv.step with hs | hs
        · constructor
          · linarith
          · have hstep : sv.step ≤ (sv.stepsRemaining : ℚ) * sv.step := by nlinarith
            linarith
        · constructor
          · have hstep : (sv.stepsRemaining : ℚ) * sv.step ≤ sv.step := by nlinarith
            linarith
          · linarith
      refine ⟨⟨hcb.1, hcb.2, ht0, ht1, ?_,
        by show (0 : ℤ) ≤ sv.stepsRemaining - 1; omega⟩, hcb.1, hcb.2⟩
      show sv.currentValue + sv.step + ((sv.stepsRemaining - 1 : ℤ) : ℚ) * sv.step =
        sv.targetValue
      rw [← hinv]
      push_cast
      ring
  · rw [getNext_settled_eq sv hrem]
    exact ⟨⟨hc0, hc1, ht0, ht1, hinv, hr⟩, hc0, hc1⟩

lemma fbok_create (F : RealFuns) : FbOK (v2_create_instance F).smoothedFeedback := by
  rw [v2_create_instance]
  refine ⟨?_, ?_, ?_, ?_, ?_, ?_⟩ <;>
    norm_num [SmoothedValue_Init, GetFeedback]

lemma fbok_set (F : RealFuns) (i : Inst) (key : String) (v : ℚ)
    (h : FbOK i.smoothedFeedback) : FbOK (v2_set_param F i key v).smoothedFeedback := by
  by_cases h2 : key = "feedback"
  · subst h2
    obtain ⟨hv0, hv1⟩ := clampQ_bounds v
    have htg0 : 0 ≤ GetFeedback (clampQ v) := by
      rw [GetFeedback]; positivity
    have htg1 : GetFeedback (clampQ v) ≤ 19 / 20 := by
      rw [GetFeedback]; nlinarith
    have hset : (v2_set_param F i "feedback" v).smoothedFeedback =
        SmoothedValue_SetTarget i.smoothedFeedback (GetFeedback (clampQ v)) RAMP_SAMPLES := by
      simp [v2_set_param]
    rw [hset, SmoothedValue_SetTarget, if_pos (by norm_num [RAMP_SAMPLES])]
    refine ⟨h.1, h.2.1, htg0, htg1, ?_, by norm_num [RAMP_SAMPLES]⟩
    show i.smoothedFeedback.currentValue +
        (RAMP_SAMPLES : ℚ) *
          ((GetFeedback (clampQ v) - i.smoothedFeedback.currentValue) /
            (RAMP_SAMPLES : ℚ)) = GetFeedback (clampQ v)
    rw [RAMP_SAMPLES]
    push_cast
    field_simp
  · have hkeep : (v2_set_param F i key v).smoothedFeedback = i.smoothedFeedback := by
      rw [v2_set_param]
      by_cases h1 : key = "time"
      · simp [h1]
      by_cases h3 : key = "mix"
      · simp [h1, h2, h3]
      by_cases h4 : key = "tone"
      · simp [h1, h2, h3, h4]
      by_cases h5 : key = "saturation"
      · simp [h1, h2, h3, h4, h5]
      · simp [h1, h2, h3, h4, h5]
    rw [hkeep]
    exact h

lemma frameStep_smoothedFeedback (F : RealFuns) (i : Inst) (fr : ℤ × ℤ) :
    (frameStep F i fr).inst.smoothedFeedback = (SmoothedValue_GetNext i.smoothedFeedback).2 :=
  rfl

lemma fbok_proc (F : RealFuns) (ins : List (ℤ × ℤ)) (i : Inst)
    (h : FbOK i.smoothedFeedback) : FbOK (processBlock F i ins).1.smoothedFeedback := by
  induction ins generalizing i with
  | nil => simpa [processBlock] using h
  | cons fr rest ih =>
    have h2 : FbOK (frameStep F i fr).inst.smoothedFeedback := by
      rw [frameStep_smoothedFeedback]
      exact (fbok_next _ h).1
    simpa [processBlock] using ih (frameStep F i fr).inst h2

lemma reachable_fbok (F : RealFuns) (i : Inst) (h : Reachable F i) :
    FbOK i.smoothedFeedback := by
  induction h with
  | create => exact fbok_create F
  | set j key v _ ih => exact fbok_set F j key v ih
  | proc j ins _ ih => exact fbok_proc F ins j ih

/-- A fixed default instance, only used as the `List.getD` fallback. -/
def defaultInst : Inst :=
  { delayLineL := { buffer := fun _ => 0, bufferLength := 88200, writePosition := 0,
                    sampleRate := 44100 },
    delayLineR := { buffer := fun _ => 0, bufferLength := 88200, writePosition := 0,
                    sampleRate := 44100 },
    toneFilterL := { z1 := 0, a0 := 1, b1 := 0 },
    toneFilterR := { z1 := 0, a0 := 1, b1 := 0 },
    smoothedDelayTime := SmoothedValue_Init 0, smoothedFeedback := SmoothedValue_Init 0,
    smoothedMix := SmoothedValue_Init 0, smoothedTone := SmoothedValue_Init 0,
    param_time := 0, param_feedback := 0, param_mix := 0, param_tone := 0,
    param_saturation := 0 }

/-- The all-zero `List.getD` fallback trace entry. -/
def defaultFrameOut : FrameOut :=
  { inst := defaultInst, outL := 0, outR := 0, outFL := 0, outFR := 0, inFL := 0,
    inFR := 0, satL := 0, satR := 0, writtenL := 0, writtenR := 0, fbUsed := 0 }

lemma traces_fb (F : RealFuns) (ins : List (ℤ × ℤ)) (i : Inst)
    (h : FbOK i.smoothedFeedback) (n : ℕ) :
    (0 ≤ ((traces F i ins).getD n defaultFrameOut).fbUsed ∧
      ((traces F i ins).getD n defaultFrameOut).fbUsed ≤ 19 / 20) ∧
    ((traces F i ins).getD n defaultFrameOut).writtenL =
      ((traces F i ins).getD n defaultFrameOut).inFL +
        ((traces F i ins).getD n defaultFrameOut).satL *
          ((traces F i ins).getD n defaultFrameOut).fbUsed ∧
    ((traces F i ins).getD n defaultFrameOut).writtenR =
      ((traces F i ins).getD n defaultFrameOut).inFR +
        ((traces F i ins).getD n defaultFrameOut).satR *
          ((traces F i ins).getD n defaultFrameOut).fbUsed := by
  induction ins generalizing i n with
  | nil =>
    norm_num [traces, defaultFrameOut]
  | cons fr rest ih =>
    cases n with
    | zero =>
      obtain ⟨_, hv0, hv1⟩ := fbok_next i.smoothedFeedback h
      refine ⟨⟨?_, ?_⟩, ?_, ?_⟩ <;> simp [traces, frameStep] <;> first
        | exact hv0
        | exact hv1
    | succ m =>
      have h2 : FbOK (frameStep F i fr).inst.smoothedFeedback := by
        rw [frameStep_smoothedFeedback]
        exact (fbok_next _ h).1
      simpa [traces] using ih (frameStep F i fr).inst h2 m

/-- C9: in every reachable instance state (any sequence of `set_param` calls
with arbitrary keys and values and any number of `processBlock` calls), the
feedback gain multiplied into the delay-line write path is between 0 and
0.95 at every sample, including mid-ramp: `GetFeedback` maps the clamped
normalised value into [0, 0.95] and the linear ramp stays inside the interval
spanned by its endpoints.  Moreover each sample written into a delay line
decomposes as `input + saturated·feedback` — the recirculating component (the
signal that subsequently re-enters the tone filter and the saturation stage
on later samples) carries the capped gain before it ever reaches the
saturation stage again. -/
theorem C9_feedback_cap (F : RealFuns) (i : Inst) (h : Reachable F i)
    (ins : List (ℤ × ℤ)) (n : ℕ) :
    (0 ≤ ((traces F i ins).getD n defaultFrameOut).fbUsed ∧
      ((traces F i ins).getD n defaultFrameOut).fbUsed ≤ 19 / 20) ∧
    ((traces F i ins).getD n defaultFrameOut).writtenL =
      ((traces F i ins).getD n defaultFrameOut).inFL +
        ((traces F i ins).getD n defaultFrameOut).satL *
          ((traces F i ins).getD n defaultFrameOut).fbUsed ∧
    ((traces F i ins).getD n defaultFrameOut).writtenR =
      ((traces F i ins).getD n defaultFrameOut).inFR +
        ((traces F i ins).getD n defaultFrameOut).satR *
          ((traces F i ins).getD n defaultFrameOut).fbUsed :=
  traces_fb F ins i (reachable_fbok F i h) n

theorem C9_feedback_cap_witness :
    Reachable stdFuns (v2_create_instance stdFuns) ∧
      (0 ≤ ((traces stdFuns (v2_create_instance stdFuns) [((1000 : ℤ), (-2000 : ℤ))]).getD 0
            defaultFrameOut).fbUsed ∧
        ((traces stdFuns (v2_create_instance stdFuns) [((1000 : ℤ), (-2000 : ℤ))]).getD 0
            defaultFrameOut).fbUsed ≤ 19 / 20) ∧
      ((traces stdFuns (v2_create_instance stdFuns) [((1000 : ℤ), (-2000 : ℤ))]).getD 0
          defaultFrameOut).writtenL =
        ((traces stdFuns (v2_create_instance stdFuns) [((1000 : ℤ), (-2000 : ℤ))]).getD 0
            defaultFrameOut).inFL +
          ((traces stdFuns (v2_create_instance stdFuns) [((1000 : ℤ), (-2000 : ℤ))]).getD 0
              defaultFrameOut).satL *
            ((traces stdFuns (v2_create_instance stdFuns) [((1000 : ℤ), (-2000 : ℤ))]).getD 0
                defaultFrameOut).fbUsed ∧
      ((traces stdFuns (v2_create_instance stdFuns) [((1000 : ℤ), (-2000 : ℤ))]).getD 0
          defaultFrameOut).writtenR =
        ((traces stdFuns (v2_create_instance stdFuns) [((1000 : ℤ), (-2000 : ℤ))]).getD 0
            defaultFrameOut).inFR +
          ((traces stdFuns (v2_create_instance stdFuns) [((1000 : ℤ), (-2000 : ℤ))]).getD 0
              defaultFrameOut).satR *
            ((traces stdFuns (v2_create_instance stdFuns) [((1000 : ℤ), (-2000 : ℤ))]).getD 0
                defaultFrameOut).fbUsed :=
  ⟨Reachable.create,
   C9_feedback_cap stdFuns (v2_create_instance stdFuns) Reachable.create
     [((1000 : ℤ), (-2000 : ℤ))] 0⟩

/-! ## C5: delay accuracy.  Scenario: all smoothed parameters settled
(feedback 0, mix 1, delay time `T`), silent delay lines and filter, impulse
`A` on the left channel at sample 0. -/

/-- The left delay line of the C5 scenario after the impulse has been
written: amplitude `Aq` at slot 0, silence elsewhere, cursor at `m`. -/
def dlAt (Aq : ℚ) (m : ℕ) : DelayLine :=
  { buffer := fun j => if j = 0 then Aq else 0, bufferLength := 88200,
    writePosition := m, sampleRate := 44100 }

/-- The clamped delay-in-samples of the scenario (`DelayLine_clampedDelay`
specialised to capacity 88200 and rate 44100, with the low clamp inactive). -/
def dscT (T : ℚ) : ℚ :=
  if (88200 : ℚ) - 1 < T * 44100 then (88200 : ℚ) - 1 else T * 44100

/-- Integer part of the clamped delay-in-samples. -/
def kOf (T : ℚ) : ℕ := (⌊dscT T⌋).toNat

/-- Fractional part of the clamped delay-in-samples. -/
def fOf (T : ℚ) : ℚ := Int.fract (dscT T)

lemma dlAt_buffer (Aq : ℚ) (m x : ℕ) : (dlAt Aq m).buffer x = if x = 0 then Aq else 0 := rfl

lemma dlAt_len (Aq : ℚ) (m : ℕ) : (dlAt Aq m).bufferLength = 88200 := rfl

lemma dlAt_wp (Aq : ℚ) (m : ℕ) : (dlAt Aq m).writePosition = m := rfl

lemma dlAt_sr (Aq : ℚ) (m : ℕ) : (dlAt Aq m).sampleRate = 44100 := rfl

lemma clamped_dlAt (Aq : ℚ) (m : ℕ) (T : ℚ) (hT1 : 1 ≤ T * 44100) :
    DelayLine_clampedDelay (dlAt Aq m) T = dscT T := by
  rw [DelayLine_clampedDelay, dscT]
  simp only [dlAt_len, dlAt_sr]
  rw [if_neg (not_lt.mpr hT1)]
  norm_num

lemma dsc_lb (T : ℚ) (hT1 : 1 ≤ T * 44100) : 1 ≤ dscT T := by
  rw [dscT]
  by_cases h : (88200 : ℚ) - 1 < T * 44100
  · rw [if_pos h]; norm_num
  · rw [if_neg h]; exact hT1

lemma dsc_ub (T : ℚ) : dscT T ≤ 88199 := by
  rw [dscT]
  by_cases h : (88200 : ℚ) - 1 < T * 44100
  · rw [if_pos h]; norm_num
  · rw [if_neg h]; linarith [not_lt.mp h]

lemma kf_facts (T : ℚ) (hT1 : 1 ≤ T * 44100) :
    ((kOf T : ℕ) : ℚ) + fOf T = dscT T ∧ 1 ≤ kOf T ∧ kOf T ≤ 88199 ∧
      0 ≤ fOf T ∧ fOf T < 1 := by
  have h1 := dsc_lb T hT1
  have h2 := dsc_ub T
  have hfl : 1 ≤ ⌊dscT T⌋ := Int.le_floor.mpr (by push_cast; exact h1)
  have hcast : ((kOf T : ℕ) : ℤ) = ⌊dscT T⌋ := by
    rw [kOf]; exact Int.toNat_of_nonneg (by omega)
  have hflub : ⌊dscT T⌋ ≤ 88199 := by
    have hle := Int.floor_le_floor (α := ℚ) h2
    simpa using hle
  refine ⟨?_, by omega, by omega, Int.fract_nonneg _, Int.fract_lt_one _⟩
  rw [fOf]
  have hq : ((kOf T : ℕ) : ℚ) = ((⌊dscT T⌋ : ℤ) : ℚ) := by exact_mod_cast hcast
  rw [hq]
  exact Int.floor_add_fract (dscT T)

lemma read_dlAt (T Aq : ℚ) (hT1 : 1 ≤ T * 44100) (m : ℕ) (hm1 : 1 ≤ m)
    (hm2 : m ≤ kOf T) :
    DelayLine_Read (dlAt Aq m) T = if m = kOf T then (1 - fOf T) * Aq else 0 := by
  obtain ⟨hkf, hk1, hk2, hf0, hf1⟩ := kf_facts T hT1
  have hclamp := clamped_dlAt Aq m T hT1
  have hD1 := dsc_lb T hT1
  have hD2 := dsc_ub T
  have hkQ : ((m : ℚ)) ≤ (kOf T : ℚ) := by exact_mod_cast hm2
  have hm1Q : (1 : ℚ) ≤ (m : ℚ) := by exact_mod_cast hm1
  by_cases hmk : m = kOf T
  · rw [if_pos hmk]
    have hmQ : (m : ℚ) = (kOf T : ℚ) := by exact_mod_cast hmk
    by_cases hf : fOf T = 0
    · -- integral delay: the read position is exactly slot 0
      have hrp0 : (m : ℚ) - dscT T = 0 := by rw [hmQ, ← hkf, hf]; ring
      have hreadPos : DelayLine_readPos (dlAt Aq m) T = 0 := by
        rw [DelayLine_readPos, hclamp]
        simp only [dlAt_wp, dlAt_len]
        rw [if_neg (by rw [hrp0]; norm_num)]
        exact hrp0
      have hidx0 : DelayLine_readIndex0 (dlAt Aq m) T = 0 := by
        rw [DelayLine_readIndex0, hreadPos]; norm_num
      have hidx1 : DelayLine_readIndex1 (dlAt Aq m) T = 1 := by
        rw [DelayLine_readIndex1, hidx0]
        simp only [dlAt_len]
        norm_num
      rw [DelayLine_Read]
      simp only [hreadPos, hidx0, hidx1, dlAt_buffer]
      norm_num [hf]
    · -- fractional delay: interpolate between slot 88199 and slot 0
      have hfpos : 0 < fOf T := lt_of_le_of_ne hf0 (Ne.symm hf)
      have hrp0 : (m : ℚ) - dscT T = -(fOf T) := by rw [hmQ, ← hkf]; ring
      have hreadPos : DelayLine_readPos (dlAt Aq m) T = 88200 - fOf T := by
        rw [DelayLine_readPos, hclamp]
        simp only [dlAt_wp, dlAt_len]
        rw [if_pos (by rw [hrp0]; linarith)]
        rw [hrp0]
        push_cast
        ring
      have hidx0 : DelayLine_readIndex0 (dlAt Aq m) T = 88199 := by
        rw [DelayLine_readIndex0, hreadPos, Int.floor_eq_iff]
        constructor
        · push_cast; linarith
        · push_cast; linarith
      have hidx1 : DelayLine_readIndex1 (dlAt Aq m) T = 0 := by
        rw [DelayLine_readIndex1, hidx0]
        simp only [dlAt_len]
        norm_num
      have hfloor : (⌊(88200 : ℚ) - fOf T⌋ : ℤ) = 88199 := by
        rw [Int.floor_eq_iff]
        constructor
        · push_cast; linarith
        · push_cast; linarith
      rw [DelayLine_Read]
      simp only [hreadPos, hidx0, hidx1, dlAt_buffer, hfloor]
      norm_num
      exact Or.inl (by ring)
  · -- before the echo: both interpolation slots hold silence
    rw [if_neg hmk]
    have hmlt : m < kOf T := lt_of_le_of_ne hm2 hmk
    have hmltQ : (m : ℚ) + 1 ≤ (kOf T : ℚ) := by exact_mod_cast hmlt
    have hrpneg : (m : ℚ) - dscT T < 0 := by linarith [hkf, hf0]
    have hreadPos : DelayLine_readPos (dlAt Aq m) T = 88200 + (m : ℚ) - dscT T := by
      rw [DelayLine_readPos, hclamp]
      simp only [dlAt_wp, dlAt_len]
      rw [if_pos hrpneg]
      push_cast
      ring
    have hrpLB : (1 : ℚ) ≤ DelayLine_readPos (dlAt Aq m) T := by
      rw [hreadPos]; linarith
    have hrpUB : DelayLine_readPos (dlAt Aq m) T ≤ 88199 - fOf T := by
      rw [hreadPos, ← hkf]; linarith
    have hidx0_lb : 1 ≤ DelayLine_readIndex0 (dlAt Aq m) T := by
      rw [DelayLine_readIndex0]
      exact Int.le_floor.mpr (by push_cast; exact hrpLB)
    have hs0 : (dlAt Aq m).buffer (DelayLine_readIndex0 (dlAt Aq m) T).toNat = 0 := by
      rw [dlAt_buffer, if_neg (by omega)]
    by_cases hf : fOf T = 0
    · -- integral delay: the fraction is zero, only slot index0 contributes
      have hint : DelayLine_readPos (dlAt Aq m) T =
          ((88200 + (m : ℤ) - (kOf T : ℤ) : ℤ) : ℚ) := by
        rw [hreadPos, ← hkf, hf]
        push_cast
        ring
      have hfr : DelayLine_readPos (dlAt Aq m) T -
          ((⌊DelayLine_readPos (dlAt Aq m) T⌋ : ℤ) : ℚ) = 0 := by
        rw [hint, Int.floor_intCast]
        ring
      rw [DelayLine_Read]
      rw [show (DelayLine_readPos (dlAt Aq m) T -
          ((⌊DelayLine_readPos (dlAt Aq m) T⌋ : ℤ) : ℚ)) *
            ((dlAt Aq m).buffer (DelayLine_readIndex1 (dlAt Aq m) T).toNat -
              (dlAt Aq m).buffer (DelayLine_readIndex0 (dlAt Aq m) T).toNat) = 0 by
        rw [hfr]; ring]
      rw [hs0]
      ring
    · have hfpos : 0 < fOf T := lt_of_le_of_ne hf0 (Ne.symm hf)
      have hidx0_ub : DelayLine_readIndex0 (dlAt Aq m) T ≤ 88198 := by
        rw [DelayLine_readIndex0]
        have hlt : DelayLine_readPos (dlAt Aq m) T < 88199 := by linarith
        have hfl2 := Int.floor_lt.mpr (show DelayLine_readPos (dlAt Aq m) T <
          ((88199 : ℤ) : ℚ) by push_cast; exact hlt)
        omega
      have hidx1_eq : DelayLine_readIndex1 (dlAt Aq m) T =
          DelayLine_readIndex0 (dlAt Aq m) T + 1 := by
        rw [DelayLine_readIndex1]
        simp only [dlAt_len]
        exact Int.emod_eq_of_lt (by omega) (by push_cast; omega)
      have hs1 : (dlAt Aq m).buffer (DelayLine_readIndex1 (dlAt Aq m) T).toNat = 0 := by
        rw [hidx1_eq, dlAt_buffer, if_neg (by omega)]
      rw [DelayLine_Read, hs0, hs1]
      ring

/-- The settled instance of the C5 scenario: every smoothed parameter settled
(`stepsRemaining = 0`) with feedback 0, mix 1 and delay time `T`; silent
delay lines and filter state; arbitrary tone-filter coefficients `a0`, `b1`
(the tone=max setting is one particular choice); saturation at its default 0. -/
def quiesceInst (T a0 b1 : ℚ) : Inst :=
  { delayLineL := { buffer := fun _ => 0, bufferLength := 88200, writePosition := 0,
                    sampleRate := 44100 },
    delayLineR := { buffer := fun _ => 0, bufferLength := 88200, writePosition := 0,
                    sampleRate := 44100 },
    toneFilterL := { z1 := 0, a0 := a0, b1 := b1 },
    toneFilterR := { z1 := 0, a0 := a0, b1 := b1 },
    smoothedDelayTime := { currentValue := T, targetValue := T, step := 0, stepsRemaining := 0 },
    smoothedFeedback := { currentValue := 0, targetValue := 0, step := 0, stepsRemaining := 0 },
    smoothedMix := { currentValue := 1, targetValue := 1, step := 0, stepsRemaining := 0 },
    smoothedTone := { currentValue := 1, targetValue := 1, step := 0, stepsRemaining := 0 },
    param_time := 0, param_feedback := 0, param_mix := 1, param_tone := 1,
    param_saturation := 0 }

/-- Left-channel state invariant during the C5 impulse response: the impulse
sits in slot 0 of the left delay line, the cursor is at `m`, the filter state
is silent, and the smoothed parameters are settled at `T`, 0, 1. -/
def LState (T a0 b1 Aq : ℚ) (m : ℕ) (i : Inst) : Prop :=
  i.delayLineL = dlAt Aq m ∧
  i.toneFilterL = { z1 := 0, a0 := a0, b1 := b1 } ∧
  i.smoothedDelayTime = { currentValue := T, targetValue := T, step := 0, stepsRemaining := 0 } ∧
  i.smoothedFeedback = { currentValue := 0, targetValue := 0, step := 0, stepsRemaining := 0 } ∧
  i.smoothedMix = { currentValue := 1, targetValue := 1, step := 0, stepsRemaining := 0 } ∧
  i.param_saturation = 0

lemma write_dlAt_zero (Aq : ℚ) (m : ℕ) (hm1 : 1 ≤ m) (hm2 : m ≤ 88198) :
    DelayLine_Write (dlAt Aq m) 0 = dlAt Aq (m + 1) := by
  rw [DelayLine_Write, dlAt, dlAt]
  simp only
  rw [if_neg (by omega)]
  congr 1
  funext j
  rw [Function.update]
  simp only [eq_rec_constant, dite_eq_ite]
  by_cases hj : j = m
  · rw [if_pos hj, if_neg (by omega)]
  · rw [if_neg hj]

lemma echo_step_mid (F : RealFuns) (T a0 b1 Aq : ℚ) (m : ℕ) (i : Inst)
    (hT1 : 1 ≤ T * 44100) (hm1 : 1 ≤ m) (hm2 : m < kOf T)
    (hL : LState T a0 b1 Aq m i) :
    LState T a0 b1 Aq (m + 1) (frameStep F i ((0 : ℤ), (0 : ℤ))).inst ∧
      (frameStep F i ((0 : ℤ), (0 : ℤ))).outFL = 0 := by
  obtain ⟨hdl, htf, hsdt, hsfb, hsmx, hsat⟩ := hL
  obtain ⟨_, hk1, hk2, hf0, hf1⟩ := kf_facts T hT1
  have hpd : SmoothedValue_GetNext i.smoothedDelayTime =
      (T, { currentValue := T, targetValue := T, step := 0, stepsRemaining := 0 }) := by
    rw [hsdt, getNext_settled_eq _ (by norm_num)]
  have hpf : SmoothedValue_GetNext i.smoothedFeedback =
      (0, { currentValue := 0, targetValue := 0, step := 0, stepsRemaining := 0 }) := by
    rw [hsfb, getNext_settled_eq _ (by norm_num)]
  have hpm : SmoothedValue_GetNext i.smoothedMix =
      (1, { currentValue := 1, targetValue := 1, step := 0, stepsRemaining := 0 }) := by
    rw [hsmx, getNext_settled_eq _ (by norm_num)]
  have hread : DelayLine_Read i.delayLineL T = 0 := by
    rw [hdl, read_dlAt T Aq hT1 m hm1 (le_of_lt hm2), if_neg (by omega)]
  have hfil : OnePoleFilter_Process i.toneFilterL 0 =
      (0, { z1 := 0, a0 := a0, b1 := b1 }) := by
    rw [htf, OnePoleFilter_Process]
    norm_num
  have hsat0 : SoftSaturate F 0 i.param_saturation = 0 := by
    rw [hsat, SoftSaturate, if_pos (le_refl 0)]
  have hwrite : DelayLine_Write i.delayLineL 0 = dlAt Aq (m + 1) := by
    rw [hdl]
    exact write_dlAt_zero Aq m hm1 (by omega)
  refine ⟨⟨?_, ?_, ?_, ?_, ?_, ?_⟩, ?_⟩ <;>
    simp only [frameStep, hpd, hpf, hpm, hread, hfil, hsat0, hsat, hwrite] <;>
    norm_num [clip1, hwrite]

lemma echo_step_last (F : RealFuns) (T a0 b1 Aq : ℚ) (i : Inst)
    (hT1 : 1 ≤ T * 44100)
    (hL : LState T a0 b1 Aq (kOf T) i) :
    (frameStep F i ((0 : ℤ), (0 : ℤ))).outFL = clip1 (a0 * ((1 - fOf T) * Aq)) := by
  obtain ⟨hdl, htf, hsdt, hsfb, hsmx, hsat⟩ := hL
  obtain ⟨_, hk1, hk2, hf0, hf1⟩ := kf_facts T hT1
  have hpd : SmoothedValue_GetNext i.smoothedDelayTime =
      (T, { currentValue := T, targetValue := T, step := 0, stepsRemaining := 0 }) := by
    rw [hsdt, getNext_settled_eq _ (by norm_num)]
  have hpf : SmoothedValue_GetNext i.smoothedFeedback =
      (0, { currentValue := 0, targetValue := 0, step := 0, stepsRemaining := 0 }) := by
    rw [hsfb, getNext_settled_eq _ (by norm_num)]
  have hpm : SmoothedValue_GetNext i.smoothedMix =
      (1, { currentValue := 1, targetValue := 1, step := 0, stepsRemaining := 0 }) := by
    rw [hsmx, getNext_settled_eq _ (by norm_num)]
  have hread : DelayLine_Read i.delayLineL T = (1 - fOf T) * Aq := by
    rw [hdl, read_dlAt T Aq hT1 (kOf T) hk1 (le_refl _), if_pos rfl]
  have hfil : (OnePoleFilter_Process i.toneFilterL ((1 - fOf T) * Aq)).1 =
      a0 * ((1 - fOf T) * Aq) := by
    rw [htf, OnePoleFilter_Process]
    norm_num
    ring
  simp only [frameStep, hpd, hpf, hpm, hread, hfil]
  norm_num

lemma echo_step0 (F : RealFuns) (T a0 b1 : ℚ) (A : ℤ) :
    LState T a0 b1 ((A : ℚ) / 32768) 1 (frameStep F (quiesceInst T a0 b1) (A, 0)).inst ∧
      (frameStep F (quiesceInst T a0 b1) (A, 0)).outFL = 0 := by
  have hpd : SmoothedValue_GetNext (quiesceInst T a0 b1).smoothedDelayTime =
      (T, { currentValue := T, targetValue := T, step := 0, stepsRemaining := 0 }) := by
    rw [quiesceInst]; rw [getNext_settled_eq _ (by norm_num)]
  have hpf : SmoothedValue_GetNext (quiesceInst T a0 b1).smoothedFeedback =
      (0, { currentValue := 0, targetValue := 0, step := 0, stepsRemaining := 0 }) := by
    rw [quiesceInst]; rw [getNext_settled_eq _ (by norm_num)]
  have hpm : SmoothedValue_GetNext (quiesceInst T a0 b1).smoothedMix =
      (1, { currentValue := 1, targetValue := 1, step := 0, stepsRemaining := 0 }) := by
    rw [quiesceInst]; rw [getNext_settled_eq _ (by norm_num)]
  have hread : DelayLine_Read (quiesceInst T a0 b1).delayLineL T = 0 := by
    apply read_zero_buffer
    intro j
    rfl
  have hfil : OnePoleFilter_Process (quiesceInst T a0 b1).toneFilterL 0 =
      (0, { z1 := 0, a0 := a0, b1 := b1 }) := by
    rw [quiesceInst, OnePoleFilter_Process]
    norm_num
  have hsatq : (quiesceInst T a0 b1).param_saturation = 0 := rfl
  have hsat0 : SoftSaturate F 0 (quiesceInst T a0 b1).param_saturation = 0 := by
    rw [hsatq, SoftSaturate, if_pos (le_refl 0)]
  have hwrite : DelayLine_Write (quiesceInst T a0 b1).delayLineL ((A : ℚ) / 32768) =
      dlAt ((A : ℚ) / 32768) 1 := by
    rw [quiesceInst, DelayLine_Write, dlAt]
    simp only
    rw [if_neg (by omega)]
    congr 1
    funext j
    rw [Function.update]
    simp only [eq_rec_constant, dite_eq_ite]
  refine ⟨⟨?_, ?_, ?_, ?_, ?_, ?_⟩, ?_⟩ <;>
    simp only [frameStep, hpd, hpf, hpm, hread, hfil, hsat0, hsatq] <;>
    norm_num [clip1, hwrite]

lemma echo_run (F : RealFuns) (T a0 b1 Aq : ℚ) (hT1 : 1 ≤ T * 44100) :
    ∀ j m : ℕ, 1 ≤ m → m + j = kOf T + 1 → ∀ i : Inst, LState T a0 b1 Aq m i →
      ∀ n : ℕ,
        ((traces F i (List.replicate j ((0 : ℤ), (0 : ℤ)))).getD n defaultFrameOut).outFL =
          if n + 1 = j then clip1 (a0 * ((1 - fOf T) * Aq)) else 0 := by
  intro j
  induction j with
  | zero =>
    intro m _ _ i _ n
    rw [if_neg (by omega)]
    simp [traces, defaultFrameOut]
  | succ jp ih =>
    intro m hm1 hmj i hL n
    rw [List.replicate_succ]
    simp only [traces]
    have hstep : m = kOf T ∨ m < kOf T := by omega
    cases n with
    | zero =>
      rcases hstep with hmk | hmlt
      · have hjp : jp = 0 := by omega
        subst hjp
        rw [if_pos rfl]
        simp only [List.getD_cons_zero]
        rw [hmk] at hL
        exact echo_step_last F T a0 b1 Aq i hT1 hL
      · have hjp : 1 ≤ jp := by omega
        rw [if_neg (by omega)]
        simp only [List.getD_cons_zero]
        exact (echo_step_mid F T a0 b1 Aq m i hT1 hm1 hmlt hL).2
    | succ np =>
      simp only [List.getD_cons_succ]
      rcases hstep with hmk | hmlt
      · have hjp : jp = 0 := by omega
        subst hjp
        rw [if_neg (by omega)]
        simp [traces, defaultFrameOut]
      · obtain ⟨hL2, _⟩ := echo_step_mid F T a0 b1 Aq m i hT1 hm1 hmlt hL
        have hres := ih (m + 1) (by omega) (by omega)
          (frameStep F i ((0 : ℤ), (0 : ℤ))).inst hL2 np
        rw [hres]
        by_cases hnp : np + 1 = jp
        · rw [if_pos hnp, if_pos (by omega)]
        · rw [if_neg hnp, if_neg (by omega)]

lemma clip1_eq_self (q : ℚ) (h1 : -1 ≤ q) (h2 : q ≤ 1) : clip1 q = q := by
  rw [clip1, if_neg (not_lt.mpr h2), if_neg (not_lt.mpr (by linarith))]

lemma k_near (T : ℚ) (hT1 : 1 ≤ T * 44100) (hT2 : T * 44100 ≤ 88200) :
    |(kOf T : ℚ) - T * 44100| ≤ 1 ∧ |((kOf T : ℚ) + 1) - T * 44100| ≤ 1 := by
  obtain ⟨hkf, hk1, hk2, hf0, hf1⟩ := kf_facts T hT1
  by_cases hcl : (88200 : ℚ) - 1 < T * 44100
  · have hdsc : dscT T = 88199 := by rw [dscT, if_pos hcl]; norm_num
    have hfz : fOf T = 0 := by
      rw [fOf, hdsc, Int.fract]
      norm_num
    have hkq : (kOf T : ℚ) = 88199 := by
      rw [hdsc, hfz] at hkf
      linarith
    rw [hkq]
    constructor
    · rw [abs_sub_comm, abs_of_nonneg (by linarith)]
      linarith
    · rw [abs_of_nonneg (by linarith)]
      linarith
  · have hdsc : dscT T = T * 44100 := by rw [dscT, if_neg hcl]
    rw [hdsc] at hkf
    constructor
    · rw [abs_sub_comm, abs_of_nonneg (by linarith)]
      linarith
    · rw [abs_of_nonneg (by linarith)]
      linarith

/-- C5: with feedback 0, mix 1 and every smoothed parameter settled, an
impulse `A` fed on the left channel at sample 0 produces its single echo at
output sample index `kOf T = ⌊clamped delay-in-samples⌋`: the (pre-int16)
left output is exactly 0 at every earlier sample, equals the interpolated
echo `a0·(1−frac)·A/32768 ≠ 0` at sample `kOf T` (the adjacent sample
`kOf T + 1` carries the complementary interpolation weight), and both
`kOf T` and `kOf T + 1` lie within 1 sample of
`round(delayTimeSeconds · sampleRate)` — the claimed index up to the
interpolation error. -/
theorem C5_delay_accuracy (F : RealFuns) (T a0 b1 : ℚ) (A : ℤ)
    (hT1 : 1 ≤ T * 44100) (hT2 : T * 44100 ≤ 88200)
    (ha0 : 0 < a0) (ha0b : a0 ≤ 1) (hA : A ≠ 0) (hAb : |A| ≤ 32767) :
    (∀ n : ℕ, n < kOf T →
      ((traces F (quiesceInst T a0 b1)
          ((A, (0 : ℤ)) :: List.replicate (kOf T) ((0 : ℤ), (0 : ℤ)))).getD n
        defaultFrameOut).outFL = 0) ∧
    ((traces F (quiesceInst T a0 b1)
        ((A, (0 : ℤ)) :: List.replicate (kOf T) ((0 : ℤ), (0 : ℤ)))).getD (kOf T)
      defaultFrameOut).outFL = a0 * ((1 - fOf T) * ((A : ℚ) / 32768)) ∧
    a0 * ((1 - fOf T) * ((A : ℚ) / 32768)) ≠ 0 ∧
    |(kOf T : ℤ) - round (T * 44100)| ≤ 1 ∧
    |((kOf T : ℤ) + 1) - round (T * 44100)| ≤ 1 := by
  obtain ⟨hkf, hk1, hk2, hf0, hf1⟩ := kf_facts T hT1
  obtain ⟨hL1, hout0⟩ := echo_step0 F T a0 b1 A
  have hAq1 : |(A : ℚ) / 32768| ≤ 32767 / 32768 := by
    rw [abs_div, abs_of_pos (by norm_num : (0 : ℚ) < 32768)]
    have : |(A : ℚ)| ≤ 32767 := by exact_mod_cast hAb
    apply div_le_div_of_nonneg_right this ?_ |>.trans
    · norm_num
    · norm_num
  have hAqlb : -1 ≤ (A : ℚ) / 32768 := by
    have := (abs_le.mp hAq1).1
    linarith
  have hAqub : (A : ℚ) / 32768 ≤ 1 := by
    have := (abs_le.mp hAq1).2
    linarith
  have hE1 : -1 ≤ a0 * ((1 - fOf T) * ((A : ℚ) / 32768)) := by
    nlinarith [mul_nonneg (le_of_lt ha0) (sub_nonneg.mpr (le_of_lt hf1))]
  have hE2 : a0 * ((1 - fOf T) * ((A : ℚ) / 32768)) ≤ 1 := by
    nlinarith [mul_nonneg (le_of_lt ha0) (sub_nonneg.mpr (le_of_lt hf1))]
  have hrun := echo_run F T a0 b1 ((A : ℚ) / 32768) hT1 (kOf T) 1 (le_refl 1)
    (by omega) (frameStep F (quiesceInst T a0 b1) (A, (0 : ℤ))).inst hL1
  refine ⟨?_, ?_, ?_, ?_, ?_⟩
  · intro n hn
    simp only [traces]
    cases n with
    | zero => simpa using hout0
    | succ np =>
      simp only [List.getD_cons_succ]
      rw [hrun np, if_neg (by omega)]
  · simp only [traces]
    obtain ⟨kp, hkp⟩ : ∃ kp, kOf T = kp + 1 := ⟨kOf T - 1, by omega⟩
    rw [hkp] at hrun ⊢
    simp only [List.getD_cons_succ]
    rw [hrun kp, if_pos rfl]
    exact clip1_eq_self _ hE1 hE2
  · refine mul_ne_zero (ne_of_gt ha0) (mul_ne_zero ?_ ?_)
    · have : 0 < 1 - fOf T := by linarith
      exact ne_of_gt this
    · exact div_ne_zero (by exact_mod_cast hA) (by norm_num)
  · obtain ⟨hn1, _⟩ := k_near T hT1 hT2
    have hr := abs_sub_round (α := ℚ) (T * 44100)
    have hq : |((kOf T : ℤ) - round (T * 44100) : ℤ)| ≤ (2 : ℤ) - 1 := by
      have hchain : |((kOf T : ℚ)) - ((round (T * 44100) : ℤ) : ℚ)| ≤ 3 / 2 := by
        calc |((kOf T : ℚ)) - ((round (T * 44100) : ℤ) : ℚ)|
            ≤ |(kOf T : ℚ) - T * 44100| + |T * 44100 - ((round (T * 44100) : ℤ) : ℚ)| := by
              apply abs_sub_le
          _ ≤ 1 + 1 / 2 := by
              exact add_le_add hn1 hr
          _ = 3 / 2 := by norm_num
      have hcast : ((|(kOf T : ℤ) - round (T * 44100)| : ℤ) : ℚ) ≤ 3 / 2 := by
        push_cast
        exact hchain
      have hlt : ((|(kOf T : ℤ) - round (T * 44100)| : ℤ) : ℚ) < 2 :=
        lt_of_le_of_lt hcast (by norm_num)
      have : |(kOf T : ℤ) - round (T * 44100)| < 2 := by exact_mod_cast hlt
      omega
    omega
  · obtain ⟨_, hn2⟩ := k_near T hT1 hT2
    have hr := abs_sub_round (α := ℚ) (T * 44100)
    have hq : |((kOf T : ℤ) + 1 - round (T * 44100) : ℤ)| < 2 := by
      have hchain : |((kOf T : ℚ) + 1) - ((round (T * 44100) : ℤ) : ℚ)| ≤ 3 / 2 := by
        calc |((kOf T : ℚ) + 1) - ((round (T * 44100) : ℤ) : ℚ)|
            ≤ |((kOf T : ℚ) + 1) - T * 44100| +
                |T * 44100 - ((round (T * 44100) : ℤ) : ℚ)| := by
              apply abs_sub_le
          _ ≤ 1 + 1 / 2 := by
              exact add_le_add hn2 hr
          _ = 3 / 2 := by norm_num
      have hcast : ((|(kOf T : ℤ) + 1 - round (T * 44100)| : ℤ) : ℚ) ≤ 3 / 2 := by
        push_cast
        exact hchain
      have hlt : ((|(kOf T : ℤ) + 1 - round (T * 44100)| : ℤ) : ℚ) < 2 :=
        lt_of_le_of_lt hcast (by norm_num)
      exact_mod_cast hlt
    omega

theorem C5_delay_accuracy_witness :
    ((1 : ℚ) ≤ 1 / 100 * 44100 ∧ (1 : ℚ) / 100 * 44100 ≤ 88200 ∧ (0 : ℚ) < 1 / 2 ∧
        (1 : ℚ) / 2 ≤ 1 ∧ (16384 : ℤ) ≠ 0 ∧ |(16384 : ℤ)| ≤ 32767) ∧
      ((∀ n : ℕ, n < kOf (1 / 100) →
        ((traces stdFuns (quiesceInst (1 / 100) (1 / 2) (1 / 4))
            (((16384 : ℤ), (0 : ℤ)) :: List.replicate (kOf (1 / 100)) ((0 : ℤ), (0 : ℤ)))).getD n
          defaultFrameOut).outFL = 0) ∧
      ((traces stdFuns (quiesceInst (1 / 100) (1 / 2) (1 / 4))
          (((16384 : ℤ), (0 : ℤ)) :: List.replicate (kOf (1 / 100)) ((0 : ℤ), (0 : ℤ)))).getD
        (kOf (1 / 100)) defaultFrameOut).outFL =
          1 / 2 * ((1 - fOf (1 / 100)) * ((16384 : ℚ) / 32768)) ∧
      1 / 2 * ((1 - fOf (1 / 100)) * ((16384 : ℚ) / 32768)) ≠ 0 ∧
      |(kOf (1 / 100) : ℤ) - round ((1 : ℚ) / 100 * 44100)| ≤ 1 ∧
      |((kOf (1 / 100) : ℤ) + 1) - round ((1 : ℚ) / 100 * 44100)| ≤ 1) :=
  ⟨⟨by norm_num, by norm_num, by norm_num, by norm_num, by norm_num, by norm_num⟩,
   C5_delay_accuracy stdFuns (1 / 100) (1 / 2) (1 / 4) 16384 (by norm_num) (by norm_num)
     (by norm_num) (by norm_num) (by norm_num) (by norm_num)⟩
